import Mathlib

/-!
Verification development for the `chart_maker` normalization / derived-metrics /
aggregation pipeline (`chart_maker/transform.py`, `chart_maker/metrics.py`,
`chart_maker/report.py`).

The pandas DataFrame pipeline is shallowly embedded as functions on lists of
records.  Conventions used throughout:

* A pandas float cell is modelled as `Option ℚ`: `none` stands for `NaN`
  (the result of `pd.to_numeric(..., errors="coerce")` on missing or
  unparsable data), `some q` for an actual number.  Arithmetic on such cells
  propagates `none` exactly as float arithmetic propagates `NaN`.
* A raw JSONL cell that is about to be numerically coerced is modelled by
  `Field` (missing / string / number), mirroring the untyped input column.
* `pd.to_datetime(..., errors="coerce")` applied to the constructed
  `"YYYY-MM-DD HH:MM"` strings is modelled by `parseTs`, which accepts exactly
  the canonical zero-padded form with in-range calendar fields and coerces
  everything else to `none` (`NaT`).
* Multi-column `DataFrame.sort_values` is pandas' stable lexsort and is
  modelled faithfully by a stable sort (`List.insertionSort`); string
  columns are compared by code points, exactly as Python compares strings.
  Single-column `sort_values` (the dedup key sort of transform.py line 90
  and the per-group timestamp sort of report.py line 27) defaults to an
  unstable quicksort, so there the program guarantees only *some*
  key-ordered permutation: the functions below fix the stable tie order as
  one admissible outcome, and every statement whose truth depends on the
  tie order is stated against all admissible outcomes (`IsKeySortOutcome`).
* The total model `toNumeric` covers the runs on which the program does not
  crash: `pd.to_numeric` additionally parses the non-finite spellings
  `"inf"`/`"Infinity"`, on which the later `astype(int)` raises; this error
  path is modelled separately and explicitly by `coerceHourF`.
-/

set_option maxRecDepth 8192

namespace ChartMaker

/-- One raw cell of a numeric column before `pd.to_numeric` coercion:
either absent (`None`/`NaN`), a string, or already a number. -/
inductive Field where
  | missing : Field
  | str (s : String) : Field
  | num (q : ℚ) : Field
deriving DecidableEq, Repr

/-- Value of a run of decimal digit characters. -/
def digitsVal (cs : List Char) : ℕ :=
  cs.foldl (fun acc c => 10 * acc + (c.toNat - 48)) 0

/-- Numeric parse of a string: the finite fragment of
`pd.to_numeric(errors="coerce")` on string cells — an optional sign, an
integer part and an optional fractional part (scientific notation is not
modelled; such strings coerce to `none`, which only makes the
"unparsable ⇒ NaN" branch larger).  The *non-finite* spellings
(`"inf"`/`"Infinity"`), which pandas parses to ±inf and on which the
integer cast of transform.py lines 35-36 then raises, are modelled by
`parseNumericF`/`coerceHourF` below; `parseDecimal` maps them to `none`
and so describes only the non-crashing runs. -/
def parseDecimal (s : String) : Option ℚ :=
  let core : List Char → Option ℚ := fun cs =>
    match cs.splitOn '.' with
    | [ip] =>
      if ip ≠ [] ∧ ip.all Char.isDigit then some (digitsVal ip : ℚ) else none
    | [ip, fp] =>
      if (ip ≠ [] ∨ fp ≠ []) ∧ ip.all Char.isDigit ∧ fp.all Char.isDigit then
        some ((digitsVal ip : ℚ) + (digitsVal fp : ℚ) / (10 ^ fp.length))
      else none
    | _ => none
  match s.data with
  | '-' :: rest => (core rest).map (fun q => -q)
  | '+' :: rest => core rest
  | cs => core cs

/-- `pd.to_numeric(x, errors="coerce")` on one cell: numbers pass through,
strings are parsed, anything unparsable or missing becomes `NaN` (`none`). -/
def toNumeric : Field → Option ℚ
  | .missing => none
  | .num q => some q
  | .str s => parseDecimal s

/-- `astype(int)` on a float: truncation toward zero. -/
def truncInt (q : ℚ) : ℤ := if 0 ≤ q then ⌊q⌋ else -⌊-q⌋

/-- A float cell as `pd.to_numeric` can actually produce it: NaN, a finite
value, or one of the infinities (which the total `Option ℚ` model cannot
represent). -/
inductive FloatCell where
  | nan : FloatCell
  | posinf : FloatCell
  | neginf : FloatCell
  | val (q : ℚ) : FloatCell
deriving DecidableEq, Repr

/-- ASCII lower-casing of one character. -/
def asciiLower (c : Char) : Char :=
  if 'A' ≤ c ∧ c ≤ 'Z' then Char.ofNat (c.toNat + 32) else c

/-- ASCII lower-casing of a string. -/
def lowerStr (s : String) : String := ⟨s.data.map asciiLower⟩

/-- The positive-infinity spellings pandas' numeric parser accepts
(case-insensitive, optional `+`). -/
def isPosInfStr (s : String) : Bool :=
  lowerStr s ∈ (["inf", "+inf", "infinity", "+infinity"] : List String)

/-- The negative-infinity spellings pandas' numeric parser accepts. -/
def isNegInfStr (s : String) : Bool :=
  lowerStr s ∈ (["-inf", "-infinity"] : List String)

/-- `pd.to_numeric(errors="coerce")` on a string cell, with the non-finite
parses made explicit: the infinity spellings produce ±inf (they are *not*
coerced to NaN), everything else behaves as `parseDecimal`. -/
def parseNumericF (s : String) : FloatCell :=
  if isPosInfStr s then .posinf
  else if isNegInfStr s then .neginf
  else
    match parseDecimal s with
    | some q => .val q
    | none => .nan

/-- `pd.to_numeric(errors="coerce")` on one cell, non-finite values kept. -/
def toNumericF : Field → FloatCell
  | .missing => .nan
  | .num q => .val q
  | .str s => parseNumericF s

/-- `.fillna(0).astype(int)` on one cell (transform.py lines 35-36):
`fillna(0)` replaces only NaN, and `astype(int)` raises `ValueError` on a
non-finite value instead of converting it. -/
def intCastCell : FloatCell → Except String ℤ
  | .nan => .ok 0
  | .val q => .ok (truncInt q)
  | .posinf => .error "Cannot convert non-finite values (NA or inf) to integer"
  | .neginf => .error "Cannot convert non-finite values (NA or inf) to integer"

/-- The `hour`/`minute` coercion of `_ensure_columns` with its error path:
`pd.to_numeric(df[col], errors="coerce").fillna(0).astype(int)`. -/
def coerceHourF (f : Field) : Except String ℤ := intCastCell (toNumericF f)

/-- A minute-resolution timestamp, as parsed from `"YYYY-MM-DD HH:MM"`. -/
structure Timestamp where
  year : ℕ
  month : ℕ
  day : ℕ
  hour : ℕ
  minute : ℕ
deriving DecidableEq, Repr

/-- Lexicographic sort key of a timestamp; for the in-range timestamps
produced by parsing this order is exactly chronological order. -/
def tsKey (t : Timestamp) : ℕ ×ₗ ℕ ×ₗ ℕ ×ₗ ℕ ×ₗ ℕ :=
  toLex (t.year, toLex (t.month, toLex (t.day, toLex (t.hour, t.minute))))

/-- Gregorian leap year. -/
def isLeap (y : ℕ) : Bool := y % 4 = 0 && (y % 100 ≠ 0 || y % 400 = 0)

/-- Number of days in a month. -/
def daysInMonth (y m : ℕ) : ℕ :=
  if m = 2 then (if isLeap y then 29 else 28)
  else if m = 4 ∨ m = 6 ∨ m = 9 ∨ m = 11 then 30
  else 31

/-- Strict parse of `"YYYY-MM-DD HH:MM"` with in-range calendar fields,
modelling `pd.to_datetime(ts_str, errors="coerce")` on the strings built by
`_build_timestamp`; any other shape coerces to `NaT` (`none`). -/
def parseTs (s : String) : Option Timestamp :=
  match s.data with
  | [y1, y2, y3, y4, c1, m1, m2, c2, d1, d2, c3, h1, h2, c4, n1, n2] =>
    if y1.isDigit ∧ y2.isDigit ∧ y3.isDigit ∧ y4.isDigit ∧
       c1 = '-' ∧ m1.isDigit ∧ m2.isDigit ∧ c2 = '-' ∧
       d1.isDigit ∧ d2.isDigit ∧ c3 = ' ' ∧
       h1.isDigit ∧ h2.isDigit ∧ c4 = ':' ∧ n1.isDigit ∧ n2.isDigit then
      let y := digitsVal [y1, y2, y3, y4]
      let mo := digitsVal [m1, m2]
      let d := digitsVal [d1, d2]
      let h := digitsVal [h1, h2]
      let mi := digitsVal [n1, n2]
      if 1 ≤ mo ∧ mo ≤ 12 ∧ 1 ≤ d ∧ d ≤ daysInMonth y mo ∧ h ≤ 23 ∧ mi ≤ 59 then
        some ⟨y, mo, d, h, mi⟩
      else none
    else none
  | _ => none

/-- Left-pad a numeral with zeros to width 2 (for rendering). -/
def pad2 (n : ℕ) : String := if n < 10 then "0" ++ toString n else toString n

/-- Left-pad a numeral with zeros to width 4 (for rendering). -/
def pad4 (n : ℕ) : String :=
  if n < 10 then "000" ++ toString n
  else if n < 100 then "00" ++ toString n
  else if n < 1000 then "0" ++ toString n
  else toString n

/-- `str(pandas.Timestamp)`: `"YYYY-MM-DD HH:MM:SS"` (seconds always 00 at
minute resolution). -/
def renderTs (t : Timestamp) : String :=
  (pad4 t.year ++ "-" ++ pad2 t.month ++ "-" ++ pad2 t.day ++ " " ++
    pad2 t.hour ++ ":" ++ pad2 t.minute) ++ ":00"

/-- `timestamp.astype(str)` on one cell: `NaT` renders as `"NaT"`. -/
def tsRender : Option Timestamp → String
  | none => "NaT"
  | some t => renderTs t

/-- `str.zfill(2)` applied to the decimal rendering of an integer. -/
def zfill2 (z : ℤ) : String :=
  let s := toString z
  if s.length < 2 then "0" ++ s else s

/-- Days since 1970-01-01 of a civil date (standard days-from-civil
computation, used only to give `delta_minutes` its numeric value). -/
def daysFromCivil (y : ℤ) (m d : ℕ) : ℤ :=
  let y' : ℤ := if m ≤ 2 then y - 1 else y
  let era : ℤ := Int.fdiv y' 400
  let yoe : ℤ := y' - era * 400
  let mp : ℤ := if m ≤ 2 then (m : ℤ) + 9 else (m : ℤ) - 3
  let doy : ℤ := Int.fdiv (153 * mp + 2) 5 + (d : ℤ) - 1
  let doe : ℤ := yoe * 365 + Int.fdiv yoe 4 - Int.fdiv yoe 100 + doy
  era * 146097 + doe - 719468

/-- Minutes since the epoch: the instant represented by a timestamp.
`(t2 - t1).dt.total_seconds().div(60.0)` equals `tsVal t2 - tsVal t1`. -/
def tsVal (t : Timestamp) : ℤ :=
  (daysFromCivil (t.year : ℤ) t.month t.day) * 1440 + (t.hour : ℕ) * 60 + t.minute

/-- One raw input record (one JSONL object), after the string columns have
been materialized by `_ensure_columns` (`astype(str)` renders missing string
cells as `"None"`, so plain `String` is faithful there) and before the
numeric/timestamp coercions. -/
structure RawRecord where
  platform : String
  song_id : String
  song_name : String
  artist_name : String
  date : String
  hour : Field
  minute : Field
  total_plays : Field
  total_listeners : Field
deriving DecidableEq, Repr

/-- A row of the working DataFrame after `_ensure_columns`,
`_build_timestamp` and the `key` column (transform.py lines 76-82). -/
structure StagedRecord where
  platform : String
  song_id : String
  song_name : String
  artist_name : String
  date : String
  hour : ℤ
  minute : ℤ
  total_plays : Option ℚ
  total_listeners : Option ℚ
  timestamp : Option Timestamp
  key : String
deriving DecidableEq, Repr

/-- A row of the normalizer's output: valid timestamp, coerced fields
(the `key` column has been dropped; all other columns survive). -/
structure CanonicalRecord where
  platform : String
  song_id : String
  song_name : String
  artist_name : String
  date : String
  hour : ℤ
  minute : ℤ
  total_plays : Option ℚ
  total_listeners : Option ℚ
  timestamp : Timestamp
deriving DecidableEq, Repr

/-- Coercion + timestamp construction + dedup key for one record
(transform.py: `_ensure_columns`, `_build_timestamp`, line 82). -/
def stage (r : RawRecord) : StagedRecord :=
  let h := truncInt ((toNumeric r.hour).getD 0)
  let mi := truncInt ((toNumeric r.minute).getD 0)
  let ts := parseTs (r.date ++ " " ++ zfill2 h ++ ":" ++ zfill2 mi)
  { platform := r.platform
    song_id := r.song_id
    song_name := r.song_name
    artist_name := r.artist_name
    date := r.date
    hour := h
    minute := mi
    total_plays := toNumeric r.total_plays
    total_listeners := toNumeric r.total_listeners
    timestamp := ts
    key := r.platform ++ "::" ++ r.song_id ++ "::" ++ tsRender ts }

/-- The sort key of a string: its code points, compared lexicographically
(exactly Python's string comparison, and kernel-computable). -/
def strKey (s : String) : List ℕ := s.data.map (·.toNat)

/-- The total preorder "the sort key of `a` is at most the sort key of `b`". -/
def keyLE {α β : Type} [LinearOrder β] (f : α → β) (a b : α) : Prop :=
  f a ≤ f b

instance keyLE.decidableRel {α β : Type} [LinearOrder β] (f : α → β) :
    DecidableRel (keyLE f) := fun a b => inferInstanceAs (Decidable (f a ≤ f b))

instance keyLE.isTotal {α β : Type} [LinearOrder β] (f : α → β) :
    IsTotal α (keyLE f) := ⟨fun a b => le_total (f a) (f b)⟩

instance keyLE.isTrans {α β : Type} [LinearOrder β] (f : α → β) :
    IsTrans α (keyLE f) := ⟨fun _ _ _ => le_trans⟩

/-- `DataFrame.sort_values` by the image of `f`, modelled as a stable sort
(insertion sort keeps equal-key rows in input order). -/
def sortByKey {α β : Type} [LinearOrder β] (f : α → β) (l : List α) : List α :=
  l.insertionSort (keyLE f)

/-- The order used by the dedup sort (transform.py line 90). -/
abbrev dedupLE : StagedRecord → StagedRecord → Prop :=
  keyLE (fun r : StagedRecord => strKey r.key)

/-- After the key sort, `groupby("key").tail(1)` keeps the last row of each
run of equal keys of whatever order the sort produced (transform.py
line 90). -/
def keepLastOfRuns : List StagedRecord → List StagedRecord
  | [] => []
  | [a] => [a]
  | a :: b :: rest =>
    if a.key = b.key then keepLastOfRuns (b :: rest)
    else a :: keepLastOfRuns (b :: rest)

/-- `df.duplicated("key").sum()`: the number of rows sharing a key with some
other row, minus one per distinct duplicated key — i.e. the number of
non-winning rows.  (`duplicated` with the default `keep="first"` marks every
row that has an earlier equal-key row; this recursion counts every row that
has a later equal-key row; both count `length - #distinct keys`.) -/
def dupCount : List String → ℕ
  | [] => 0
  | k :: ks => (if k ∈ ks then 1 else 0) + dupCount ks

/-- The sort key for the final ordering `(platform, song_id, timestamp)`,
with `NaT` sorting last within a group (pandas `na_position="last"`). -/
def stagedKeyO (r : StagedRecord) :
    List ℕ ×ₗ List ℕ ×ₗ WithTop (ℕ ×ₗ ℕ ×ₗ ℕ ×ₗ ℕ ×ₗ ℕ) :=
  toLex (strKey r.platform,
    toLex (strKey r.song_id, (r.timestamp.elim ⊤ (fun t => (tsKey t : WithTop _)))))

/-- The dedup stage (transform.py line 90): sort the staged rows by the
`key` column and keep the last row of each equal-key run.  Pandas'
single-column `sort_values(["key"])` defaults to an unstable quicksort, so
which member of an equal-key class ends up last is implementation-defined;
this function fixes the stable tie order as one admissible outcome (see
`IsKeySortOutcome` for the statements quantified over all outcomes; every
claim conclusion that is proved through `dedupStage` alone is independent
of the tie order). -/
def dedupStage (l : List RawRecord) : List StagedRecord :=
  keepLastOfRuns (sortByKey (fun r => strKey r.key) (l.map stage))

/-- An admissible outcome of the line-90 key sort: single-column
`sort_values` uses the default (unstable) quicksort, so the program
guarantees only *some* permutation of the staged rows that is ordered by
the `key` column. -/
def IsKeySortOutcome (st out : List StagedRecord) : Prop :=
  List.Perm out st ∧ out.Pairwise (keyLE (fun r : StagedRecord => strKey r.key))

/-- Rows preceding the `timestamp.notna()` filter, in final order:
coerce, build keys, dedup (last wins), sort by `(platform, song_id,
timestamp)` (transform.py lines 76-96). -/
def sortedStage (l : List RawRecord) : List StagedRecord :=
  sortByKey stagedKeyO (dedupStage l)

/-- Feeding a normalized row back into the pipeline as a raw record: the
output DataFrame's columns are exactly the input columns (plus `timestamp`,
which the next run rebuilds from `date`/`hour`/`minute`), with `hour` and
`minute` already integers and the counters floats-or-NaN. -/
def toRaw (c : CanonicalRecord) : RawRecord :=
  { platform := c.platform
    song_id := c.song_id
    song_name := c.song_name
    artist_name := c.artist_name
    date := c.date
    hour := .num (c.hour : ℚ)
    minute := .num (c.minute : ℚ)
    total_plays := c.total_plays.elim .missing .num
    total_listeners := c.total_listeners.elim .missing .num }

/-- Extraction of a canonical record from a staged row with a valid
timestamp (the `notna` filter plus dropping the `key` column). -/
def toCanonical (s : StagedRecord) : Option CanonicalRecord :=
  s.timestamp.map (fun t =>
    { platform := s.platform
      song_id := s.song_id
      song_name := s.song_name
      artist_name := s.artist_name
      date := s.date
      hour := s.hour
      minute := s.minute
      total_plays := s.total_plays
      total_listeners := s.total_listeners
      timestamp := t })

/-- `transform.normalize`: returns the cleaned rows and the duplicate-key
collision count. -/
def normalize (l : List RawRecord) : List CanonicalRecord × ℕ :=
  match l with
  | [] => ([], 0)
  | _ :: _ =>
    ((sortedStage l).filterMap toCanonical, dupCount ((l.map stage).map (·.key)))

/-- The number of records removed by the invalid-timestamp rejection step
(transform.py lines 99-101, reported via logging only). -/
def rejectedCount (l : List RawRecord) : ℕ :=
  match l with
  | [] => 0
  | _ :: _ =>
    (sortedStage l).length - ((sortedStage l).filter (·.timestamp.isSome)).length

/-! ### Metrics engine (`chart_maker/metrics.py`) -/

/-- NaN-propagating subtraction of two float cells (`Series.diff`):
present only when both operands are present. -/
def optSub (a b : Option ℚ) : Option ℚ :=
  match a, b with
  | some x, some y => some (x - y)
  | _, _ => none

/-- Whether a delta cell is present and strictly negative
(`df["delta_*"] < 0`; a `NaN` comparison is `False`). -/
def negB : Option ℚ → Bool
  | some x => decide (x < 0)
  | none => false

/-- A row of the metrics DataFrame: the canonical row plus the derived
columns added by `add_metrics`. -/
structure MetricRecord where
  row : CanonicalRecord
  delta_plays : Option ℚ
  delta_listeners : Option ℚ
  delta_minutes : Option ℚ
  rate_plays_per_min : Option ℚ
  rate_listeners_per_min : Option ℚ
  is_anomaly_negative_diff : Bool
deriving DecidableEq, Repr

/-- The `(platform, song_id)` group key of a metric row. -/
def mGroupKey (m : MetricRecord) : String × String := (m.row.platform, m.row.song_id)

/-- Derived columns of one row given its within-group predecessor
(metrics.py lines 35-65): `groupby.diff` yields `NaN` at the first row of a
group and otherwise the difference with the previous row of the same group;
rates are set only where `delta_minutes > 0`, and stay `NaN` when the
corresponding delta is `NaN`. -/
def mkMetric (prev : Option CanonicalRecord) (r : CanonicalRecord) : MetricRecord :=
  let dp := match prev with
    | none => none
    | some p => optSub r.total_plays p.total_plays
  let dl := match prev with
    | none => none
    | some p => optSub r.total_listeners p.total_listeners
  let dm : Option ℚ := match prev with
    | none => none
    | some p => some ((tsVal r.timestamp - tsVal p.timestamp : ℤ) : ℚ)
  let rp := match dm with
    | some m => if 0 < m then dp.map (· / m) else none
    | none => none
  let rl := match dm with
    | some m => if 0 < m then dl.map (· / m) else none
    | none => none
  { row := r
    delta_plays := dp
    delta_listeners := dl
    delta_minutes := dm
    rate_plays_per_min := rp
    rate_listeners_per_min := rl
    is_anomaly_negative_diff := negB dp || negB dl }

/-- The sort key `(platform, song_id, timestamp)` of a canonical row. -/
def canonKey (c : CanonicalRecord) :
    List ℕ ×ₗ List ℕ ×ₗ ℕ ×ₗ ℕ ×ₗ ℕ ×ₗ ℕ ×ₗ ℕ :=
  toLex (strKey c.platform, toLex (strKey c.song_id, tsKey c.timestamp))

/-- Walk a list whose equal-group rows are contiguous and attach the derived
columns, passing each row as the candidate predecessor of the next.  On the
`(platform, song_id, timestamp)`-sorted frame this is exactly
`groupby(["platform", "song_id"]).diff()`: the rows of a group are adjacent
there, so the within-group predecessor is the adjacent predecessor when it
belongs to the same group, and absent otherwise. -/
def annotate : Option CanonicalRecord → List CanonicalRecord → List MetricRecord
  | _, [] => []
  | prev, r :: rs =>
    let p := match prev with
      | none => none
      | some p => if p.platform = r.platform ∧ p.song_id = r.song_id then some p else none
    mkMetric p r :: annotate (some r) rs

/-- `metrics.add_metrics`: returns the annotated rows (sorted by
`(platform, song_id, timestamp)`) and the count of negative-diff anomalies. -/
def add_metrics (l : List CanonicalRecord) : List MetricRecord × ℕ :=
  match l with
  | [] => ([], 0)
  | _ :: _ =>
    let out := annotate none (sortByKey canonKey l)
    (out, out.countP (·.is_anomaly_negative_diff))

/-! ### Aggregator (`chart_maker/report.py`) -/

/-- Python `x or 0` on a float cell: `0.0` is falsy and is replaced by `0`
(numerically a no-op), while `NaN` is truthy and passes through unchanged —
so the `or 0` never substitutes a number for an absent value. -/
def orZero : Option ℚ → Option ℚ
  | none => none
  | some v => if v = 0 then some 0 else some v

/-- Python `a or b` on strings: the empty string is falsy. -/
def strOr (a b : String) : String := if a = "" then b else a

/-- `Series.dropna().mean()`: the mean of the present values, `NaN` when
there are none (never zero). -/
def meanOpt (vals : List ℚ) : Option ℚ :=
  if vals = [] then none else some (vals.sum / (vals.length : ℚ))

/-- One row of the summary table. -/
structure SummaryRecord where
  platform : String
  song_id : String
  song_name : String
  artist_name : String
  first_timestamp : Timestamp
  last_timestamp : Timestamp
  first_total_plays : Option ℚ
  last_total_plays : Option ℚ
  net_plays : Option ℚ
  first_total_listeners : Option ℚ
  last_total_listeners : Option ℚ
  net_listeners : Option ℚ
  avg_rate_plays_per_min : Option ℚ
  avg_rate_listeners_per_min : Option ℚ
  num_points : ℕ
  num_anomalies_negative_diff : ℕ
deriving DecidableEq, Repr

/-- The rows of one `(platform, song_id)` group, re-sorted by timestamp
(report.py line 27; a single-column sort, so the model fixes one tie order —
in the pipeline no two rows of a group share a timestamp, and the summary
claims were checked to be invariant under reordering of equal
timestamps). -/
def summaryGroup (l : List MetricRecord) (k : String × String) : List MetricRecord :=
  sortByKey (fun m => tsKey m.row.timestamp) (l.filter (fun m => mGroupKey m = k))

/-- The summary row of one group (report.py lines 26-64); `none` only on an
empty group, which `groupby` never produces. -/
def groupRow (l : List MetricRecord) (k : String × String) : Option SummaryRecord :=
  match summaryGroup l k with
  | [] => none
  | f :: rest =>
    let lastR := rest.getLastD f
    some
      { platform := k.1
        song_id := k.2
        song_name := strOr lastR.row.song_name (strOr f.row.song_name "")
        artist_name := strOr lastR.row.artist_name (strOr f.row.artist_name "")
        first_timestamp := f.row.timestamp
        last_timestamp := lastR.row.timestamp
        first_total_plays := f.row.total_plays
        last_total_plays := lastR.row.total_plays
        net_plays := optSub (orZero lastR.row.total_plays) (orZero f.row.total_plays)
        first_total_listeners := f.row.total_listeners
        last_total_listeners := lastR.row.total_listeners
        net_listeners :=
          optSub (orZero lastR.row.total_listeners) (orZero f.row.total_listeners)
        avg_rate_plays_per_min :=
          meanOpt ((f :: rest).filterMap (·.rate_plays_per_min))
        avg_rate_listeners_per_min :=
          meanOpt ((f :: rest).filterMap (·.rate_listeners_per_min))
        num_points := (f :: rest).length
        num_anomalies_negative_diff :=
          (f :: rest).countP (·.is_anomaly_negative_diff) }

/-- `report.build_summary_table`: one summary row per `(platform, song_id)`
group, plus the per-platform anomaly totals (the totals accumulate each
group's anomaly count by platform, which is the count of flagged rows of
that platform; platforms never seen map to 0, modelling absence from the
dict).  `groupby` iterates one group per distinct key; on the sorted metrics
frame produced upstream the groups are contiguous, so the order in which
`List.dedup` enumerates the distinct keys agrees with it (and no claim
depends on the order of the summary rows). -/
def build_summary_table (l : List MetricRecord) :
    List SummaryRecord × (String → ℕ) :=
  match l with
  | [] => ([], fun _ => 0)
  | _ :: _ =>
    (((l.map mGroupKey).dedup).filterMap (groupRow l),
      fun p =>
        (l.filter (fun m => m.row.platform = p)).countP (·.is_anomaly_negative_diff))

/-- Absence of every derived numeric column of a metric row (the boundary
state of the first record of a group). -/
def noDeltas (m : MetricRecord) : Prop :=
  m.delta_plays = none ∧ m.delta_listeners = none ∧ m.delta_minutes = none ∧
    m.rate_plays_per_min = none ∧ m.rate_listeners_per_min = none

/-- The relation between two adjacent rows of the metrics output: a group
boundary resets every derived column, and within a group the derived columns
come from exactly the immediately preceding row. -/
def metricStep (a b : MetricRecord) : Prop :=
  (¬ (a.row.platform = b.row.platform ∧ a.row.song_id = b.row.song_id) →
    noDeltas b) ∧
  ((a.row.platform = b.row.platform ∧ a.row.song_id = b.row.song_id) →
    b.delta_plays = optSub b.row.total_plays a.row.total_plays ∧
    b.delta_listeners = optSub b.row.total_listeners a.row.total_listeners ∧
    b.delta_minutes = some ((tsVal b.row.timestamp - tsVal a.row.timestamp : ℤ) : ℚ))

/-! ### Concrete records used by witnesses and counterexamples -/

/-- Raw record of the spec's dedup scenario (GENIE, song 1, 2025-12-17 10:00). -/
def wRaw1 : RawRecord :=
  ⟨"GENIE", "1", "A", "AA", "2025-12-17", .num 10, .num 0, .num 100, .num 50⟩

/-- A later snapshot of the same song at 10:10. -/
def wRaw3 : RawRecord :=
  ⟨"GENIE", "1", "A", "AA", "2025-12-17", .num 10, .num 10, .num 120, .num 60⟩

/-- A record with an unparsable date and malformed numeric counters. -/
def wRawBad : RawRecord :=
  ⟨"GENIE", "1", "A", "AA", "not-a-date", .num 10, .num 0, .str "xyz", .missing⟩

/-- A record colliding with `wRaw1` on the dedup key but differing in its
payload (total plays 200 instead of 100). -/
def wRawDup : RawRecord :=
  ⟨"GENIE", "1", "A", "AA", "2025-12-17", .num 10, .num 0, .num 200, .num 50⟩

/-- A second unparsable-date record of the same (GENIE, 1) group. -/
def wRawBad2 : RawRecord :=
  ⟨"GENIE", "1", "A", "AA", "bad-date", .num 10, .num 0, .num 7, .num 8⟩

/-- Canonical record: GENIE song 1 at 2025-12-17 10:00, plays 100. -/
def wCanA : CanonicalRecord :=
  ⟨"GENIE", "1", "A", "AA", "2025-12-17", 10, 0, some 100, some 50, ⟨2025, 12, 17, 10, 0⟩⟩

/-- Canonical record: GENIE song 1 at 2025-12-17 10:10, plays 120. -/
def wCanB : CanonicalRecord :=
  ⟨"GENIE", "1", "A", "AA", "2025-12-17", 10, 10, some 120, some 60, ⟨2025, 12, 17, 10, 10⟩⟩

/-- Canonical record: GENIE song 1 at 2025-12-17 10:20, plays 150. -/
def wCanC : CanonicalRecord :=
  ⟨"GENIE", "1", "A", "AA", "2025-12-17", 10, 20, some 150, some 70, ⟨2025, 12, 17, 10, 20⟩⟩

/-- Canonical record with an absent plays counter at 10:00 (same group). -/
def wCanN : CanonicalRecord :=
  ⟨"GENIE", "1", "A", "AA", "2025-12-17", 10, 0, none, some 50, ⟨2025, 12, 17, 10, 0⟩⟩

/-! ## General lemmas -/

theorem tsKey_inj {a b : Timestamp} (h : tsKey a = tsKey b) : a = b := by
  cases a; cases b
  simp only [tsKey, toLex, Equiv.refl_apply, Prod.mk.injEq] at h
  simp_all

theorem negB_eq_true {o : Option ℚ} : negB o = true ↔ ∃ v, o = some v ∧ v < 0 := by
  cases o <;> simp [negB]

@[simp] theorem mkMetric_row (p : Option CanonicalRecord) (r : CanonicalRecord) :
    (mkMetric p r).row = r := by
  cases p <;> rfl

theorem mkMetric_none (r : CanonicalRecord) :
    (mkMetric none r).delta_plays = none ∧ (mkMetric none r).delta_listeners = none ∧
    (mkMetric none r).delta_minutes = none ∧ (mkMetric none r).rate_plays_per_min = none ∧
    (mkMetric none r).rate_listeners_per_min = none := by
  refine ⟨rfl, rfl, rfl, rfl, rfl⟩

theorem mkMetric_some (p r : CanonicalRecord) :
    (mkMetric (some p) r).delta_plays = optSub r.total_plays p.total_plays ∧
    (mkMetric (some p) r).delta_listeners = optSub r.total_listeners p.total_listeners ∧
    (mkMetric (some p) r).delta_minutes =
      some ((tsVal r.timestamp - tsVal p.timestamp : ℤ) : ℚ) := by
  refine ⟨rfl, rfl, rfl⟩

/-- Every row of `annotate` is `mkMetric` of some predecessor option. -/
theorem mem_annotate {m : MetricRecord} :
    ∀ {prev : Option CanonicalRecord} {l : List CanonicalRecord},
      m ∈ annotate prev l → ∃ p r, m = mkMetric p r
  | _, [], h => by simp [annotate] at h
  | prev, r :: rs, h => by
    simp only [annotate, List.mem_cons] at h
    rcases h with h | h
    · exact ⟨_, _, h⟩
    · exact mem_annotate h

/-- The rate guard of a single constructed row. -/
theorem mkMetric_rate_guard (p : Option CanonicalRecord) (r : CanonicalRecord) :
    ((mkMetric p r).rate_plays_per_min.isSome = true ↔
      (∃ dm, (mkMetric p r).delta_minutes = some dm ∧ 0 < dm) ∧
        (mkMetric p r).delta_plays.isSome = true) ∧
    (∀ dm dp, (mkMetric p r).delta_minutes = some dm → 0 < dm →
      (mkMetric p r).delta_plays = some dp →
      (mkMetric p r).rate_plays_per_min = some (dp / dm)) ∧
    ((mkMetric p r).rate_listeners_per_min.isSome = true ↔
      (∃ dm, (mkMetric p r).delta_minutes = some dm ∧ 0 < dm) ∧
        (mkMetric p r).delta_listeners.isSome = true) ∧
    (∀ dm dl, (mkMetric p r).delta_minutes = some dm → 0 < dm →
      (mkMetric p r).delta_listeners = some dl →
      (mkMetric p r).rate_listeners_per_min = some (dl / dm)) ∧
    (∀ dm, (mkMetric p r).delta_minutes = some dm → dm ≤ 0 →
      (mkMetric p r).rate_plays_per_min = none ∧
        (mkMetric p r).rate_listeners_per_min = none) := by
  rcases p with _ | p
  · simp [mkMetric]
  · simp only [mkMetric]
    set dmv : ℚ := ((tsVal r.timestamp - tsVal p.timestamp : ℤ) : ℚ) with hdm
    by_cases hpos : 0 < dmv
    · simp only [if_pos hpos]
      refine ⟨?_, ?_, ?_, ?_, ?_⟩
      · cases optSub r.total_plays p.total_plays <;>
          simp_all [Option.isSome]
      · intro dm dp hdmeq hdmpos hdp
        simp only [Option.some.injEq] at hdmeq
        subst hdmeq
        simp [hdp]
      · cases optSub r.total_listeners p.total_listeners <;>
          simp_all [Option.isSome]
      · intro dm dl hdmeq hdmpos hdl
        simp only [Option.some.injEq] at hdmeq
        subst hdmeq
        simp [hdl]
      · intro dm hdmeq hdmle
        simp only [Option.some.injEq] at hdmeq
        subst hdmeq
        exact absurd hpos (not_lt.mpr hdmle)
    · simp only [if_neg hpos]
      refine ⟨by simp [hpos], ?_, by simp [hpos], ?_, by simp⟩
      · intro dm dp hdmeq hdmpos _
        simp only [Option.some.injEq] at hdmeq
        subst hdmeq
        exact absurd hdmpos hpos
      · intro dm dl hdmeq hdmpos _
        simp only [Option.some.injEq] at hdmeq
        subst hdmeq
        exact absurd hdmpos hpos

theorem mkMetric_flag (p : Option CanonicalRecord) (r : CanonicalRecord) :
    (mkMetric p r).is_anomaly_negative_diff =
      (negB (mkMetric p r).delta_plays || negB (mkMetric p r).delta_listeners) := by
  cases p <;> rfl

/-- Adjacent rows of any `annotate` run satisfy the boundary/within-group
step relation. -/
theorem annotate_chain :
    ∀ (prev : Option CanonicalRecord) (l : List CanonicalRecord),
      List.Chain' metricStep (annotate prev l)
  | _, [] => List.chain'_nil
  | prev, r :: rs => by
    simp only [annotate]
    apply List.chain'_cons'.2
    refine ⟨?_, annotate_chain (some r) rs⟩
    intro b hb
    rcases rs with _ | ⟨s, ss⟩
    · simp [annotate] at hb
    · simp only [annotate, List.head?_cons, Option.mem_def, Option.some.injEq] at hb
      subst hb
      constructor
      · intro hne
        rw [mkMetric_row] at hne
        have : ¬ (r.platform = s.platform ∧ r.song_id = s.song_id) := by
          simpa using hne
        rw [if_neg this]
        exact mkMetric_none s
      · intro hsame
        rw [mkMetric_row] at hsame
        have hsame' : r.platform = s.platform ∧ r.song_id = s.song_id := by
          simpa using hsame
        rw [if_pos hsame']
        simpa using mkMetric_some r s

/-- Every row of the metrics output is built by `mkMetric`. -/
theorem mem_add_metrics {l : List CanonicalRecord} {m : MetricRecord}
    (hm : m ∈ (add_metrics l).1) : ∃ p r, m = mkMetric p r := by
  rcases l with _ | ⟨a, l'⟩
  · simp [add_metrics] at hm
  · exact mem_annotate hm

/-! ## Claim theorems -/

/-- C4: for every record produced by the metrics engine and every counter,
`rate_<counter>_per_min` is present iff `delta_minutes > 0` and the
corresponding delta is present, in which case it equals the delta divided by
`delta_minutes`; when `delta_minutes` is non-positive the rate is absent
(and, the division being guarded, no division fault can occur). -/
theorem c4_rate_guard (l : List CanonicalRecord) (m : MetricRecord)
    (hm : m ∈ (add_metrics l).1) :
    (m.rate_plays_per_min.isSome = true ↔
      (∃ dm, m.delta_minutes = some dm ∧ 0 < dm) ∧ m.delta_plays.isSome = true) ∧
    (∀ dm dp, m.delta_minutes = some dm → 0 < dm → m.delta_plays = some dp →
      m.rate_plays_per_min = some (dp / dm)) ∧
    (m.rate_listeners_per_min.isSome = true ↔
      (∃ dm, m.delta_minutes = some dm ∧ 0 < dm) ∧ m.delta_listeners.isSome = true) ∧
    (∀ dm dl, m.delta_minutes = some dm → 0 < dm → m.delta_listeners = some dl →
      m.rate_listeners_per_min = some (dl / dm)) ∧
    (∀ dm, m.delta_minutes = some dm → dm ≤ 0 →
      m.rate_plays_per_min = none ∧ m.rate_listeners_per_min = none) := by
  obtain ⟨p, r, rfl⟩ := mem_add_metrics hm
  exact mkMetric_rate_guard p r

/-- Witness for C4 at a synthetic zero-interval pair (the spec's
scenario 4): both rates are absent there. -/
theorem c4_rate_guard_witness :
    ((mkMetric (some wCanA) wCanN) ∈ (add_metrics [wCanA, wCanN]).1 ∧
      (mkMetric (some wCanA) wCanN).delta_minutes = some 0) ∧
    (mkMetric (some wCanA) wCanN).rate_plays_per_min = none ∧
      (mkMetric (some wCanA) wCanN).rate_listeners_per_min = none := by
  refine ⟨⟨by with_unfolding_all decide, by with_unfolding_all decide⟩, ?_⟩
  exact (c4_rate_guard [wCanA, wCanN] (mkMetric (some wCanA) wCanN)
    (by with_unfolding_all decide)).2.2.2.2 0 (by with_unfolding_all decide) le_rfl

/-- C5: the first record of every `(source, item_id)` group has absent
delta, elapsed-time and rate fields, and a record's deltas are computed only
from the immediately preceding record of the same group in the engine's
order — never across a group boundary. -/
theorem c5_group_boundary (l : List CanonicalRecord) :
    (∀ m, ((add_metrics l).1).head? = some m → noDeltas m) ∧
    List.Chain' metricStep ((add_metrics l).1) := by
  rcases l with _ | ⟨a, l'⟩
  · exact ⟨fun m hm => by simp [add_metrics] at hm, by simp [add_metrics]⟩
  · constructor
    · intro m hm
      simp only [add_metrics] at hm
      rcases hs : sortByKey canonKey (a :: l') with _ | ⟨x, xs⟩
      · rw [hs] at hm; simp [annotate] at hm
      · rw [hs] at hm
        simp only [annotate, List.head?_cons, Option.some.injEq] at hm
        subst hm
        exact mkMetric_none x
    · simpa [add_metrics] using annotate_chain none (sortByKey canonKey (a :: l'))

/-- Witness for C5: on a two-group input the head row and every adjacent
pair satisfy the boundary discipline. -/
theorem c5_group_boundary_witness :
    (∀ m, ((add_metrics [wCanA, wCanB]).1).head? = some m → noDeltas m) ∧
    List.Chain' metricStep ((add_metrics [wCanA, wCanB]).1) :=
  c5_group_boundary [wCanA, wCanB]

/-- C6: `is_anomaly_negative_diff` is set iff some present delta of the
record is strictly negative (an absent delta never triggers it), and the
returned anomaly count is the number of flagged records. -/
theorem c6_anomaly (l : List CanonicalRecord) :
    (∀ m ∈ (add_metrics l).1,
      (m.is_anomaly_negative_diff = true ↔
        (∃ v, m.delta_plays = some v ∧ v < 0) ∨
          (∃ v, m.delta_listeners = some v ∧ v < 0))) ∧
    (add_metrics l).2 = ((add_metrics l).1).countP (·.is_anomaly_negative_diff) := by
  constructor
  · intro m hm
    obtain ⟨p, r, rfl⟩ := mem_add_metrics hm
    rw [mkMetric_flag, Bool.or_eq_true, negB_eq_true, negB_eq_true]
  · rcases l with _ | ⟨a, l'⟩ <;> rfl

/-- Witness for C6 at the spec's scenario 3 (plays drop from 100 to 80):
the second record is flagged and the count is 1. -/
theorem c6_anomaly_witness :
    ((∀ m ∈ (add_metrics [⟨"GENIE", "1", "A", "AA", "2025-12-17", 10, 10,
        some 80, some 60, ⟨2025, 12, 17, 10, 10⟩⟩, wCanA]).1,
      (m.is_anomaly_negative_diff = true ↔
        (∃ v, m.delta_plays = some v ∧ v < 0) ∨
          (∃ v, m.delta_listeners = some v ∧ v < 0))) ∧
    (add_metrics [⟨"GENIE", "1", "A", "AA", "2025-12-17", 10, 10,
        some 80, some 60, ⟨2025, 12, 17, 10, 10⟩⟩, wCanA]).2 =
      ((add_metrics [⟨"GENIE", "1", "A", "AA", "2025-12-17", 10, 10,
        some 80, some 60, ⟨2025, 12, 17, 10, 10⟩⟩, wCanA]).1).countP
          (·.is_anomaly_negative_diff)) ∧
    (add_metrics [⟨"GENIE", "1", "A", "AA", "2025-12-17", 10, 10,
        some 80, some 60, ⟨2025, 12, 17, 10, 10⟩⟩, wCanA]).2 = 1 :=
  ⟨c6_anomaly _, by with_unfolding_all decide⟩

theorem orZero_eq (o : Option ℚ) : orZero o = o := by
  rcases o with _ | v
  · rfl
  · simp only [orZero]
    split <;> simp_all

/-- Every group with at least one row contributes its `groupRow` to the
summary table. -/
theorem groupRow_mem_summary {l : List MetricRecord} {k : String × String}
    {row : SummaryRecord} (h : groupRow l k = some row) :
    row ∈ (build_summary_table l).1 := by
  have hne : ∃ f rest, summaryGroup l k = f :: rest := by
    rcases hg : summaryGroup l k with _ | ⟨f, rest⟩
    · rw [groupRow, hg] at h; cases h
    · exact ⟨f, rest, rfl⟩
  obtain ⟨f, rest, hg⟩ := hne
  have hf : f ∈ l.filter (fun m => decide (mGroupKey m = k)) := by
    have : f ∈ summaryGroup l k := by rw [hg]; exact List.mem_cons_self f rest
    simpa [summaryGroup, sortByKey] using
      (List.perm_insertionSort (keyLE fun m : MetricRecord => tsKey m.row.timestamp) _).mem_iff.1 this
  have hfl : f ∈ l := (List.mem_filter.1 hf).1
  have hkey : mGroupKey f = k := by
    have := (List.mem_filter.1 hf).2
    simpa using this
  have hkmem : k ∈ (l.map mGroupKey).dedup :=
    List.mem_dedup.2 (List.mem_map.2 ⟨f, hfl, hkey⟩)
  rcases l with _ | ⟨a, l'⟩
  · cases hfl
  · exact List.mem_filterMap.2 ⟨k, hkmem, h⟩

/-- Unfolding of `groupRow` on a nonempty group. -/
theorem groupRow_eq {l : List MetricRecord} {k : String × String}
    {f : MetricRecord} {rest : List MetricRecord}
    (h : summaryGroup l k = f :: rest) :
    groupRow l k = some
      { platform := k.1
        song_id := k.2
        song_name := strOr (rest.getLastD f).row.song_name (strOr f.row.song_name "")
        artist_name := strOr (rest.getLastD f).row.artist_name (strOr f.row.artist_name "")
        first_timestamp := f.row.timestamp
        last_timestamp := (rest.getLastD f).row.timestamp
        first_total_plays := f.row.total_plays
        last_total_plays := (rest.getLastD f).row.total_plays
        net_plays := optSub (orZero (rest.getLastD f).row.total_plays)
          (orZero f.row.total_plays)
        first_total_listeners := f.row.total_listeners
        last_total_listeners := (rest.getLastD f).row.total_listeners
        net_listeners := optSub (orZero (rest.getLastD f).row.total_listeners)
          (orZero f.row.total_listeners)
        avg_rate_plays_per_min := meanOpt ((f :: rest).filterMap (·.rate_plays_per_min))
        avg_rate_listeners_per_min :=
          meanOpt ((f :: rest).filterMap (·.rate_listeners_per_min))
        num_points := (f :: rest).length
        num_anomalies_negative_diff :=
          (f :: rest).countP (·.is_anomaly_negative_diff) } := by
  rw [groupRow, h]

/-- C2 (amended): for every nonempty group, the summary row exists and its
`net_<counter>` is the NaN-propagating difference of the last and first
counter values: equal to last minus first when both endpoints are present,
and absent (not zero-substituted) when either endpoint is absent. -/
theorem c2_net_change (l : List MetricRecord) (p s : String) (f : MetricRecord)
    (rest : List MetricRecord) (h : summaryGroup l (p, s) = f :: rest) :
    ∃ row ∈ (build_summary_table l).1,
      row.platform = p ∧ row.song_id = s ∧
      row.first_total_plays = f.row.total_plays ∧
      row.last_total_plays = (rest.getLastD f).row.total_plays ∧
      row.net_plays = optSub (rest.getLastD f).row.total_plays f.row.total_plays ∧
      row.net_listeners =
        optSub (rest.getLastD f).row.total_listeners f.row.total_listeners ∧
      (∀ x y, (rest.getLastD f).row.total_plays = some x →
        f.row.total_plays = some y → row.net_plays = some (x - y)) ∧
      ((rest.getLastD f).row.total_plays = none ∨ f.row.total_plays = none →
        row.net_plays = none) := by
  refine ⟨_, groupRow_mem_summary (groupRow_eq h), rfl, rfl, rfl, rfl, ?_, ?_, ?_, ?_⟩
  · simp only [orZero_eq]
  · simp only [orZero_eq]
  · intro x y hx hy
    simp only [orZero_eq, hx, hy, optSub]
  · intro hnone
    rcases hnone with hn | hn
    · simp only [orZero_eq, hn, optSub]
    · simp only [orZero_eq, hn, optSub]
      cases (rest.getLastD f).row.total_plays <;> rfl

/-- Witness for C2 (amended) at the spec's scenario 5 group
(plays 100 → 120 → 150): `net_plays = 50`. -/
theorem c2_net_change_witness :
    (∃ row ∈ (build_summary_table
        [mkMetric none wCanA, mkMetric (some wCanA) wCanB,
          mkMetric (some wCanB) wCanC]).1,
      row.platform = "GENIE" ∧ row.song_id = "1" ∧
      row.first_total_plays = (mkMetric none wCanA).row.total_plays ∧
      row.last_total_plays = (mkMetric (some wCanB) wCanC).row.total_plays ∧
      row.net_plays = optSub (mkMetric (some wCanB) wCanC).row.total_plays
        (mkMetric none wCanA).row.total_plays ∧
      row.net_listeners = optSub (mkMetric (some wCanB) wCanC).row.total_listeners
        (mkMetric none wCanA).row.total_listeners ∧
      (∀ x y, (mkMetric (some wCanB) wCanC).row.total_plays = some x →
        (mkMetric none wCanA).row.total_plays = some y → row.net_plays = some (x - y)) ∧
      ((mkMetric (some wCanB) wCanC).row.total_plays = none ∨
          (mkMetric none wCanA).row.total_plays = none →
        row.net_plays = none)) ∧
    optSub (mkMetric (some wCanB) wCanC).row.total_plays
      (mkMetric none wCanA).row.total_plays = some 50 := by
  constructor
  · have h : summaryGroup
        [mkMetric none wCanA, mkMetric (some wCanA) wCanB, mkMetric (some wCanB) wCanC]
        ("GENIE", "1") =
        mkMetric none wCanA :: [mkMetric (some wCanA) wCanB, mkMetric (some wCanB) wCanC] := by
      with_unfolding_all decide
    exact c2_net_change _ "GENIE" "1" _ _ h
  · with_unfolding_all decide

/-- Counterexample to C2 as stated: in a group whose first snapshot has an
absent plays counter and whose last has plays 120, the claimed
"absent endpoint treated as zero" reading predicts `net_plays = 120 - 0`;
the code yields an absent `net_plays` (`NaN` propagates through the
subtraction, because `NaN or 0` is `NaN` in Python). -/
theorem c2_counterexample :
    ((build_summary_table [mkMetric none wCanN, mkMetric (some wCanN) wCanB]).1.map
      (·.net_plays)) = [none] ∧
    ((build_summary_table [mkMetric none wCanN, mkMetric (some wCanN) wCanB]).1.map
      (·.net_plays)) ≠ [some ((120 : ℚ) - 0)] := by
  constructor
  · with_unfolding_all decide
  · with_unfolding_all decide

/-- C8: for every nonempty group, the summary row exists with:
per-counter average rate equal to the arithmetic mean of exactly the present
`rate_<counter>_per_min` values (absent — never zero — when no rate is
present), `num_points` equal to the group's size, and
`num_anomalies_negative_diff` equal to the number of flagged rows. -/
theorem c8_summary_consistency (l : List MetricRecord) (p s : String)
    (f : MetricRecord) (rest : List MetricRecord)
    (h : summaryGroup l (p, s) = f :: rest) :
    ∃ row ∈ (build_summary_table l).1,
      row.platform = p ∧ row.song_id = s ∧
      (∀ vals, (f :: rest).filterMap (·.rate_plays_per_min) = vals → vals ≠ [] →
        row.avg_rate_plays_per_min = some (vals.sum / (vals.length : ℚ))) ∧
      ((f :: rest).filterMap (·.rate_plays_per_min) = [] →
        row.avg_rate_plays_per_min = none) ∧
      (∀ vals, (f :: rest).filterMap (·.rate_listeners_per_min) = vals → vals ≠ [] →
        row.avg_rate_listeners_per_min = some (vals.sum / (vals.length : ℚ))) ∧
      ((f :: rest).filterMap (·.rate_listeners_per_min) = [] →
        row.avg_rate_listeners_per_min = none) ∧
      row.num_points = (f :: rest).length ∧
      row.num_anomalies_negative_diff = (f :: rest).countP (·.is_anomaly_negative_diff) := by
  refine ⟨_, groupRow_mem_summary (groupRow_eq h), rfl, rfl, ?_, ?_, ?_, ?_, rfl, rfl⟩
  · intro vals hv hne
    simp only [meanOpt, hv, if_neg hne]
  · intro hv
    simp [meanOpt, hv]
  · intro vals hv hne
    simp only [meanOpt, hv, if_neg hne]
  · intro hv
    simp [meanOpt, hv]

/-- Witness for C8 on the scenario-5 group: 3 points, rates present at the
two non-boundary rows, mean 5/3, no anomalies. -/
theorem c8_summary_consistency_witness :
    ∃ row ∈ (build_summary_table
        [mkMetric none wCanA, mkMetric (some wCanA) wCanB,
          mkMetric (some wCanB) wCanC]).1,
      row.platform = "GENIE" ∧ row.song_id = "1" ∧
      (∀ vals,
        ([mkMetric none wCanA, mkMetric (some wCanA) wCanB,
          mkMetric (some wCanB) wCanC].filterMap (·.rate_plays_per_min)) = vals →
        vals ≠ [] →
        row.avg_rate_plays_per_min = some (vals.sum / (vals.length : ℚ))) ∧
      (([mkMetric none wCanA, mkMetric (some wCanA) wCanB,
          mkMetric (some wCanB) wCanC].filterMap (·.rate_plays_per_min)) = [] →
        row.avg_rate_plays_per_min = none) ∧
      (∀ vals,
        ([mkMetric none wCanA, mkMetric (some wCanA) wCanB,
          mkMetric (some wCanB) wCanC].filterMap (·.rate_listeners_per_min)) = vals →
        vals ≠ [] →
        row.avg_rate_listeners_per_min = some (vals.sum / (vals.length : ℚ))) ∧
      (([mkMetric none wCanA, mkMetric (some wCanA) wCanB,
          mkMetric (some wCanB) wCanC].filterMap (·.rate_listeners_per_min)) = [] →
        row.avg_rate_listeners_per_min = none) ∧
      row.num_points = [mkMetric none wCanA, mkMetric (some wCanA) wCanB,
        mkMetric (some wCanB) wCanC].length ∧
      row.num_anomalies_negative_diff =
        [mkMetric none wCanA, mkMetric (some wCanA) wCanB,
          mkMetric (some wCanB) wCanC].countP (·.is_anomaly_negative_diff) :=
  c8_summary_consistency _ "GENIE" "1" _ _ (by with_unfolding_all decide)

/-! ## Sorting and dedup lemmas -/

theorem sortByKey_perm {α β : Type} [LinearOrder β] (f : α → β) (l : List α) :
    List.Perm (sortByKey f l) l :=
  List.perm_insertionSort (keyLE f) l

theorem sortByKey_sorted {α β : Type} [LinearOrder β] (f : α → β) (l : List α) :
    (sortByKey f l).Pairwise (keyLE f) :=
  List.sorted_insertionSort (keyLE f) l

theorem mem_sortByKey {α β : Type} [LinearOrder β] {f : α → β} {l : List α} {a : α} :
    a ∈ sortByKey f l ↔ a ∈ l :=
  (sortByKey_perm f l).mem_iff

theorem strKey_inj {a b : String} (h : strKey a = strKey b) : a = b := by
  have hchar : ∀ x y : Char, x.toNat = y.toNat → x = y := by
    intro x y hxy
    exact Char.eq_of_val_eq (UInt32.ext hxy)
  have hdata : a.data = b.data :=
    List.map_injective_iff.2 (fun x y hxy => hchar x y hxy) h
  cases a; cases b
  exact congrArg String.mk hdata

/-- Re-sorting never changes the subsequence of rows selected by a filter
whose satisfying rows all share one sort key (stability of the sort). -/
theorem sortByKey_filter_eq {α β : Type} [LinearOrder β] (f : α → β) (l : List α)
    (p : α → Bool) (hp : ∀ a b, p a = true → p b = true → f a = f b) :
    (sortByKey f l).filter p = l.filter p := by
  have hpw : (l.filter p).Pairwise (keyLE f) :=
    List.pairwise_of_forall_mem_list (fun a ha b hb =>
      le_of_eq (hp a b (List.of_mem_filter ha) (List.of_mem_filter hb)))
  have hsub : List.Sublist (l.filter p) (sortByKey f l) :=
    List.sublist_insertionSort hpw (List.filter_sublist l)
  have hself : (l.filter p).filter p = l.filter p :=
    List.filter_eq_self.2 (fun a ha => List.of_mem_filter ha)
  have hsub2 : List.Sublist (l.filter p) ((sortByKey f l).filter p) := by
    have := hsub.filter p
    rwa [hself] at this
  have hlen : ((sortByKey f l).filter p).length = (l.filter p).length := by
    rw [← List.countP_eq_length_filter, ← List.countP_eq_length_filter]
    exact (sortByKey_perm f l).countP_eq p
  exact (hsub2.eq_of_length hlen.symm).symm

theorem key_lt_of_ne {a b : StagedRecord} (hle : dedupLE a b) (hne : a.key ≠ b.key) :
    strKey a.key < strKey b.key :=
  lt_of_le_of_ne hle (fun h => hne (strKey_inj h))

theorem keepLastOfRuns_sublist :
    ∀ s : List StagedRecord, List.Sublist (keepLastOfRuns s) s
  | [] => List.Sublist.refl []
  | [a] => List.Sublist.refl [a]
  | a :: b :: t => by
    rw [keepLastOfRuns]
    split
    · exact (keepLastOfRuns_sublist (b :: t)).cons a
    · exact (keepLastOfRuns_sublist (b :: t)).cons₂ a

/-- On a key-sorted list, keeping the last row of each run keeps exactly the
last row carrying each key. -/
theorem keepLastOfRuns_filter :
    ∀ (s : List StagedRecord), s.Pairwise dedupLE → ∀ k : String,
      (keepLastOfRuns s).filter (fun r => r.key = k) =
        ((s.filter (fun r => r.key = k)).getLast?).toList
  | [], _, k => rfl
  | [a], _, k => by
    by_cases hak : a.key = k
    · simp [keepLastOfRuns, hak]
    · simp [keepLastOfRuns, hak]
  | a :: b :: t, hpw, k => by
    have hpw' : (b :: t).Pairwise dedupLE := hpw.of_cons
    have ih := keepLastOfRuns_filter (b :: t) hpw' k
    rw [keepLastOfRuns]
    by_cases hab : a.key = b.key
    · rw [if_pos hab]
      by_cases hak : a.key = k
      · have hbk : b.key = k := hab ▸ hak
        have hfb : (b :: t).filter (fun r => r.key = k) =
            b :: t.filter (fun r => r.key = k) := by
          simp [List.filter_cons, hbk]
        rw [ih]
        have : (a :: b :: t).filter (fun r => r.key = k) =
            a :: b :: t.filter (fun r => r.key = k) := by
          simp [List.filter_cons, hak, hbk]
        rw [this, hfb, List.getLast?_cons_cons]
      · have : (a :: b :: t).filter (fun r => r.key = k) =
            (b :: t).filter (fun r => r.key = k) := by
          simp [List.filter_cons, hak]
        rw [this, ih]
    · rw [if_neg hab]
      by_cases hak : a.key = k
      · have hnot : ∀ x ∈ b :: t, ¬ x.key = k := by
          intro x hx
          have hax : dedupLE a x := List.rel_of_pairwise_cons hpw hx
          have hbx : strKey b.key ≤ strKey x.key := by
            rcases hx with _ | hx'
            · exact le_rfl
            · exact List.rel_of_pairwise_cons hpw' (by assumption)
          have hlt : strKey a.key < strKey x.key :=
            lt_of_lt_of_le (key_lt_of_ne (List.rel_of_pairwise_cons hpw
              (List.mem_cons_self b t)) hab) hbx
          intro hxk
          exact absurd (strKey_inj (by rw [hxk, ← hak]) : x.key = a.key).symm
            (fun h => (ne_of_lt hlt) (by rw [h]))
        have hfb : (b :: t).filter (fun r => r.key = k) = [] :=
          List.filter_eq_nil_iff.2 (by
            intro x hx
            simpa using hnot x hx)
        have hfk : (keepLastOfRuns (b :: t)).filter (fun r => r.key = k) = [] := by
          rw [ih, hfb]; rfl
        have : (a :: b :: t).filter (fun r => r.key = k) =
            [a] := by
          simp [List.filter_cons, hak, hfb]
        rw [this]
        simp [List.filter_cons, hak, hfk]
      · have : (a :: b :: t).filter (fun r => r.key = k) =
            (b :: t).filter (fun r => r.key = k) := by
          simp [List.filter_cons, hak]
        rw [this, ← ih]
        simp [List.filter_cons, hak]

/-- After the dedup step of a key-sorted list the keys are pairwise
distinct. -/
theorem keepLastOfRuns_nodup :
    ∀ (s : List StagedRecord), s.Pairwise dedupLE →
      ((keepLastOfRuns s).map (·.key)).Nodup
  | [], _ => List.nodup_nil
  | [a], _ => by simp [keepLastOfRuns]
  | a :: b :: t, hpw => by
    have hpw' : (b :: t).Pairwise dedupLE := hpw.of_cons
    have ih := keepLastOfRuns_nodup (b :: t) hpw'
    rw [keepLastOfRuns]
    by_cases hab : a.key = b.key
    · rw [if_pos hab]; exact ih
    · rw [if_neg hab]
      refine List.nodup_cons.2 ⟨?_, ih⟩
      intro hmem
      obtain ⟨x, hx, hxk⟩ := List.mem_map.1 hmem
      have hxbt : x ∈ b :: t := List.Sublist.mem hx (keepLastOfRuns_sublist (b :: t))
      have hbx : strKey b.key ≤ strKey x.key := by
        rcases hxbt with _ | hx'
        · exact le_rfl
        · exact List.rel_of_pairwise_cons hpw' (by assumption)
      have hlt : strKey a.key < strKey x.key :=
        lt_of_lt_of_le (key_lt_of_ne (List.rel_of_pairwise_cons hpw
          (List.mem_cons_self b t)) hab) hbx
      exact (ne_of_lt hlt) (by rw [hxk])

/-- Dedup keeps one row per distinct key. -/
theorem keepLastOfRuns_length :
    ∀ (s : List StagedRecord), s.Pairwise dedupLE →
      (keepLastOfRuns s).length = ((s.map (·.key)).dedup).length
  | [], _ => rfl
  | [a], _ => by simp [keepLastOfRuns]
  | a :: b :: t, hpw => by
    have hpw' : (b :: t).Pairwise dedupLE := hpw.of_cons
    have ih := keepLastOfRuns_length (b :: t) hpw'
    rw [keepLastOfRuns]
    by_cases hab : a.key = b.key
    · rw [if_pos hab]
      have : ((a :: b :: t).map (·.key)).dedup = ((b :: t).map (·.key)).dedup := by
        simp only [List.map_cons]
        exact List.dedup_cons_of_mem (by rw [hab]; exact List.mem_cons_self _ _)
      rw [this]; exact ih
    · rw [if_neg hab]
      have hnot : a.key ∉ (b :: t).map (·.key) := by
        intro hmem
        obtain ⟨x, hx, hxk⟩ := List.mem_map.1 hmem
        have hbx : strKey b.key ≤ strKey x.key := by
          rcases hx with _ | hx'
          · exact le_rfl
          · exact List.rel_of_pairwise_cons hpw' (by assumption)
        have hlt : strKey a.key < strKey x.key :=
          lt_of_lt_of_le (key_lt_of_ne (List.rel_of_pairwise_cons hpw
            (List.mem_cons_self b t)) hab) hbx
        exact (ne_of_lt hlt) (by rw [hxk])
      have : ((a :: b :: t).map (·.key)).dedup =
          a.key :: ((b :: t).map (·.key)).dedup := by
        simp only [List.map_cons]
        exact List.dedup_cons_of_not_mem hnot
      rw [this]
      simp only [List.length_cons, ih]

/-- A list with pairwise-distinct keys is left unchanged by dedup. -/
theorem keepLastOfRuns_id :
    ∀ (s : List StagedRecord), ((s.map (·.key)).Nodup) → keepLastOfRuns s = s
  | [], _ => rfl
  | [a], _ => rfl
  | a :: b :: t, hnd => by
    rw [List.map_cons] at hnd
    have h1 := List.nodup_cons.1 hnd
    have hab : a.key ≠ b.key := by
      intro h
      exact h1.1 (by rw [List.map_cons, h]; exact List.mem_cons_self _ _)
    rw [keepLastOfRuns, if_neg hab, keepLastOfRuns_id (b :: t) h1.2]

theorem dupCount_eq (ks : List String) : dupCount ks = ks.length - ks.dedup.length := by
  induction ks with
  | nil => rfl
  | cons k ks ih =>
    by_cases hk : k ∈ ks
    · have hd : (k :: ks).dedup = ks.dedup := List.dedup_cons_of_mem hk
      have hle : ks.dedup.length ≤ ks.length := (List.dedup_sublist ks).length_le
      simp only [dupCount, if_pos hk, hd, ih, List.length_cons]
      omega
    · have hd : (k :: ks).dedup = k :: ks.dedup := List.dedup_cons_of_not_mem hk
      have hle : ks.dedup.length ≤ ks.length := (List.dedup_sublist ks).length_le
      simp only [dupCount, if_neg hk, hd, ih, List.length_cons]
      omega

/-- The survivors of the dedup step are, for each key, exactly the last
record in input order carrying that key. -/
theorem dedupStage_filter_eq (l : List RawRecord) (k : String) :
    (dedupStage l).filter (fun r => r.key = k) =
      (((l.map stage).filter (fun r => r.key = k)).getLast?).toList := by
  have hsorted := sortByKey_sorted (fun r : StagedRecord => strKey r.key) (l.map stage)
  rw [dedupStage, keepLastOfRuns_filter _ hsorted k,
    sortByKey_filter_eq (fun r : StagedRecord => strKey r.key) (l.map stage) _
      (fun a b ha hb => by
        have ha' : a.key = k := of_decide_eq_true ha
        have hb' : b.key = k := of_decide_eq_true hb
        show strKey a.key = strKey b.key
        rw [ha', hb'])]

/-- Every nonempty list has a last element, so `getLast?.toList` is a
singleton. -/
theorem getLast_toList_length {α : Type} {l : List α} (h : l ≠ []) :
    ((l.getLast?).toList).length = 1 := by
  rcases hg : l.getLast? with _ | x
  · exact absurd (List.getLast?_eq_none_iff.1 hg) h
  · rfl

/-- C1 (amended): whatever tie order the unstable single-column key sort
produces, every dedup-key class keeps exactly one of its colliding records
(all the others are discarded), and the collision count equals the total
number of discarded records.  Which collider survives depends on the sort's
tie order — the last in input order is not guaranteed when the colliding
records differ (see the counterexample) — but identical colliding records
leave the same survivor under every tie order: two records identical on the
key normalize to one canonical record with one collision counted. -/
theorem c1_dedup_collisions (l : List RawRecord) (out : List StagedRecord)
    (hout : IsKeySortOutcome (l.map stage) out) :
    (∀ r ∈ keepLastOfRuns out, r ∈ l.map stage) ∧
    (∀ k, k ∈ (l.map stage).map (·.key) →
      ((keepLastOfRuns out).filter (fun r => r.key = k)).length = 1) ∧
    (∀ k, ((keepLastOfRuns out).filter (fun r => r.key = k)).length ≤ 1) ∧
    (normalize l).2 = l.length - (keepLastOfRuns out).length ∧
    ((normalize [wRaw1, wRaw1]).1.length = 1 ∧ (normalize [wRaw1, wRaw1]).2 = 1) := by
  obtain ⟨hperm, hpw⟩ := hout
  refine ⟨?_, ?_, ?_, ?_, by with_unfolding_all decide, by with_unfolding_all decide⟩
  · intro r hr
    exact hperm.mem_iff.1 (List.Sublist.mem hr (keepLastOfRuns_sublist out))
  · intro k hk
    rw [keepLastOfRuns_filter out hpw k]
    have hcount : 0 < (l.map stage).countP (fun r => r.key = k) := by
      rw [List.countP_pos_iff]
      obtain ⟨x, hx, hxk⟩ := List.mem_map.1 hk
      exact ⟨x, hx, decide_eq_true hxk⟩
    have hcount' : 0 < out.countP (fun r => r.key = k) := by
      rw [hperm.countP_eq]
      exact hcount
    have hne : out.filter (fun r => r.key = k) ≠ [] := by
      intro h
      rw [List.countP_eq_length_filter, h] at hcount'
      exact absurd hcount' (by simp)
    exact getLast_toList_length hne
  · intro k
    rw [keepLastOfRuns_filter out hpw k]
    rcases hg : (out.filter (fun r => r.key = k)).getLast? with _ | x
    · rw [hg]
      exact Nat.zero_le 1
    · rw [hg]
      exact le_rfl
  · rcases l with _ | ⟨a, l'⟩
    · have hout0 : out = [] := hperm.eq_nil
      rw [hout0]
      rfl
    · show dupCount (((a :: l').map stage).map (·.key)) = _
      rw [dupCount_eq]
      have h1 : (((a :: l').map stage).map (·.key)).length = (a :: l').length := by
        simp
      have h2 : (keepLastOfRuns out).length = ((out.map (·.key)).dedup).length :=
        keepLastOfRuns_length out hpw
      have h3 : ((out.map (·.key)).dedup).length =
          ((((a :: l').map stage).map (·.key)).dedup).length :=
        ((hperm.map _).dedup).length_eq
      rw [h1, h2, h3]

/-- Witness for C1 (amended) at the identity tie order of a two-record
colliding input: one survivor, one collision. -/
theorem c1_dedup_collisions_witness :
    ((∀ r ∈ keepLastOfRuns [stage wRaw1, stage wRawDup],
        r ∈ [wRaw1, wRawDup].map stage) ∧
      (∀ k, k ∈ ([wRaw1, wRawDup].map stage).map (·.key) →
        ((keepLastOfRuns [stage wRaw1, stage wRawDup]).filter
          (fun r => r.key = k)).length = 1) ∧
      (∀ k, ((keepLastOfRuns [stage wRaw1, stage wRawDup]).filter
        (fun r => r.key = k)).length ≤ 1) ∧
      (normalize [wRaw1, wRawDup]).2 =
        [wRaw1, wRawDup].length - (keepLastOfRuns [stage wRaw1, stage wRawDup]).length ∧
      ((normalize [wRaw1, wRaw1]).1.length = 1 ∧ (normalize [wRaw1, wRaw1]).2 = 1)) ∧
    (normalize [wRaw1, wRawDup]).2 = 1 :=
  ⟨c1_dedup_collisions [wRaw1, wRawDup] [stage wRaw1, stage wRawDup]
      ⟨List.Perm.refl _, by with_unfolding_all decide⟩,
    by with_unfolding_all decide⟩

/-- Counterexample to C1 as stated: the reversed order of two records that
collide on the key but differ in payload is an admissible outcome of the
unstable key sort (both rows compare equal on the key), and under it the
dedup keeps the *first* record of the input, not the last — so "the last
record encountered in input order wins" is not guaranteed by the program. -/
theorem c1_counterexample :
    IsKeySortOutcome ([wRaw1, wRawDup].map stage) [stage wRawDup, stage wRaw1] ∧
    keepLastOfRuns [stage wRawDup, stage wRaw1] = [stage wRaw1] ∧
    stage wRaw1 ≠ stage wRawDup := by
  refine ⟨⟨List.Perm.swap (stage wRaw1) (stage wRawDup) [], by with_unfolding_all decide⟩,
    by with_unfolding_all decide, by with_unfolding_all decide⟩

theorem stagedKeyO_le_iff {a b : StagedRecord} :
    keyLE stagedKeyO a b ↔
      (strKey a.platform < strKey b.platform ∨
        (strKey a.platform = strKey b.platform ∧
          (strKey a.song_id < strKey b.song_id ∨
            (strKey a.song_id = strKey b.song_id ∧
              (a.timestamp.elim (⊤ : WithTop (ℕ ×ₗ ℕ ×ₗ ℕ ×ₗ ℕ ×ₗ ℕ)) (fun t => (tsKey t : WithTop _))) ≤
                (b.timestamp.elim ⊤ (fun t => (tsKey t : WithTop _))))))) := by
  show toLex _ ≤ toLex _ ↔ _
  rw [Prod.Lex.le_iff]
  constructor
  · rintro (h | ⟨h1, h2⟩)
    · exact Or.inl h
    · rw [Prod.Lex.le_iff] at h2
      exact Or.inr ⟨h1, h2⟩
  · rintro (h | ⟨h1, h2⟩)
    · exact Or.inl h
    · exact Or.inr ⟨h1, (Prod.Lex.le_iff _ _).2 h2⟩

theorem canonKey_le_iff {a b : CanonicalRecord} :
    keyLE canonKey a b ↔
      (strKey a.platform < strKey b.platform ∨
        (strKey a.platform = strKey b.platform ∧
          (strKey a.song_id < strKey b.song_id ∨
            (strKey a.song_id = strKey b.song_id ∧
              tsKey a.timestamp ≤ tsKey b.timestamp)))) := by
  show toLex _ ≤ toLex _ ↔ _
  rw [Prod.Lex.le_iff]
  constructor
  · rintro (h | ⟨h1, h2⟩)
    · exact Or.inl h
    · rw [Prod.Lex.le_iff] at h2
      exact Or.inr ⟨h1, h2⟩
  · rintro (h | ⟨h1, h2⟩)
    · exact Or.inl h
    · exact Or.inr ⟨h1, (Prod.Lex.le_iff _ _).2 h2⟩

theorem toCanonical_some {a : StagedRecord} {b : CanonicalRecord}
    (h : toCanonical a = some b) :
    a.timestamp = some b.timestamp ∧ b.platform = a.platform ∧ b.song_id = a.song_id := by
  rcases ht : a.timestamp with _ | t
  · rw [toCanonical, ht] at h; cases h
  · rw [toCanonical, ht, Option.map_some'] at h
    injection h with hb
    subst hb
    exact ⟨rfl, rfl, rfl⟩

theorem stage_keyfact (raw : RawRecord) :
    (stage raw).key =
      (stage raw).platform ++ "::" ++ (stage raw).song_id ++ "::" ++
        tsRender (stage raw).timestamp := rfl

theorem mem_sortedStage {l : List RawRecord} {r : StagedRecord}
    (h : r ∈ sortedStage l) : ∃ raw ∈ l, r = stage raw := by
  have h1 : r ∈ dedupStage l := mem_sortByKey.1 h
  have h2 : r ∈ sortByKey (fun x : StagedRecord => strKey x.key) (l.map stage) :=
    List.Sublist.mem h1 (keepLastOfRuns_sublist _)
  have h3 : r ∈ l.map stage := mem_sortByKey.1 h2
  obtain ⟨raw, hraw, hr⟩ := List.mem_map.1 h3
  exact ⟨raw, hraw, hr.symm⟩

theorem sortedStage_nodup_keys (l : List RawRecord) :
    ((sortedStage l).map (·.key)).Nodup := by
  have h1 := keepLastOfRuns_nodup
    (sortByKey (fun r : StagedRecord => strKey r.key) (l.map stage))
    (sortByKey_sorted _ _)
  have hperm : List.Perm ((sortedStage l).map (·.key)) ((dedupStage l).map (·.key)) :=
    (sortByKey_perm stagedKeyO (dedupStage l)).map _
  exact hperm.nodup_iff.2 h1

/-- C3: the normalizer's output is sorted ascending by
`(platform, song_id, timestamp)`, and within any one group the timestamps
are strictly increasing (no ties survive normalization). -/
theorem c3_ordering (l : List RawRecord) :
    List.Pairwise (fun a b : CanonicalRecord =>
      keyLE canonKey a b ∧
      (a.platform = b.platform → a.song_id = b.song_id →
        tsKey a.timestamp < tsKey b.timestamp)) ((normalize l).1) := by
  rcases l with _ | ⟨x, l'⟩
  · exact List.Pairwise.nil
  · show List.Pairwise _ ((sortedStage (x :: l')).filterMap toCanonical)
    set L := x :: l' with hL
    have P1 : (sortedStage L).Pairwise (keyLE stagedKeyO) :=
      sortByKey_sorted stagedKeyO (dedupStage L)
    have P2 : (sortedStage L).Pairwise (fun a b => a.key ≠ b.key) := by
      have := sortedStage_nodup_keys L
      rw [List.Nodup, List.pairwise_map] at this
      exact this
    have P3 : (sortedStage L).Pairwise (fun a b =>
        (keyLE stagedKeyO a b ∧ a.key ≠ b.key) ∧
        (a.key = a.platform ++ "::" ++ a.song_id ++ "::" ++ tsRender a.timestamp ∧
          b.key = b.platform ++ "::" ++ b.song_id ++ "::" ++ tsRender b.timestamp)) := by
      refine (P1.and P2).imp_of_mem ?_
      intro a b ha hb hr
      obtain ⟨rawa, _, rfl⟩ := mem_sortedStage ha
      obtain ⟨rawb, _, rfl⟩ := mem_sortedStage hb
      exact ⟨hr, stage_keyfact rawa, stage_keyfact rawb⟩
    refine List.Pairwise.filterMap toCanonical ?_ P3
    intro a a' hr b hb b' hb'
    obtain ⟨⟨hle, hkne⟩, hka, hka'⟩ := hr
    obtain ⟨hta, hpa, hsa⟩ := toCanonical_some (Option.mem_def.1 hb)
    obtain ⟨hta', hpa', hsa'⟩ := toCanonical_some (Option.mem_def.1 hb')
    have hle' : keyLE canonKey b b' := by
      rw [canonKey_le_iff, hpa, hsa, hpa', hsa']
      rw [stagedKeyO_le_iff, hta, hta'] at hle
      simpa using hle
    refine ⟨hle', ?_⟩
    intro hpeq hseq
    have hpeq' : a.platform = a'.platform := by rw [← hpa, ← hpa', hpeq]
    have hseq' : a.song_id = a'.song_id := by rw [← hsa, ← hsa', hseq]
    have htne : b.timestamp ≠ b'.timestamp := by
      intro hteq
      apply hkne
      rw [hka, hka', hpeq', hseq', hta, hta', hteq]
    have htle : tsKey b.timestamp ≤ tsKey b'.timestamp := by
      rw [canonKey_le_iff] at hle'
      rcases hle' with hlt | ⟨hp, hrest⟩
      · rw [hpeq] at hlt; exact absurd hlt (lt_irrefl _)
      · rcases hrest with hlt | ⟨hs, hts⟩
        · rw [hseq] at hlt; exact absurd hlt (lt_irrefl _)
        · exact hts
    exact lt_of_le_of_ne htle (fun h => htne (tsKey_inj h))

theorem countP_split {α : Type} (l : List α) (p q : α → Bool) :
    l.countP p = l.countP (fun a => p a && q a) + l.countP (fun a => p a && !q a) := by
  induction l with
  | nil => rfl
  | cons a t ih =>
    rw [List.countP_cons, List.countP_cons, List.countP_cons, ih]
    rcases hp : p a <;> rcases hq : q a <;> simp [hp, hq] <;> omega

theorem mem_dedupStage {l : List RawRecord} {r : StagedRecord}
    (h : r ∈ dedupStage l) : r ∈ l.map stage :=
  mem_sortByKey.1 (List.Sublist.mem h (keepLastOfRuns_sublist _))

/-- C7: all unparsable-timestamp records of one `(platform, song_id)` group
share the single dedup key `platform::song_id::NaT`, so at most one of them
survives dedup into the rejection step, the other `k - 1` being counted as
duplicate-key collisions — and consequently the reported rejection count is
strictly smaller than the number of raw records with unparsable
timestamps. -/
theorem c7_nat_key_collapse (l : List RawRecord) (p s : String)
    (hk : 2 ≤ ((l.map stage).filter
      (fun r => r.platform = p ∧ r.song_id = s ∧ r.timestamp = none)).length) :
    (∀ r ∈ l.map stage, r.platform = p → r.song_id = s → r.timestamp = none →
      r.key = p ++ "::" ++ s ++ "::" ++ "NaT") ∧
    ((dedupStage l).filter
      (fun r => r.platform = p ∧ r.song_id = s ∧ r.timestamp = none)).length ≤ 1 ∧
    rejectedCount l < (l.map stage).countP (fun r => r.timestamp = none) := by
  have keyfact : ∀ r ∈ l.map stage, r.platform = p → r.song_id = s →
      r.timestamp = none → r.key = p ++ "::" ++ s ++ "::" ++ "NaT" := by
    intro r hr hp hs htn
    obtain ⟨raw, _, hr'⟩ := List.mem_map.1 hr
    subst hr'
    rw [stage_keyfact, hp, hs, htn]
    rfl
  have hKsing : ((dedupStage l).filter
      (fun r => r.key = p ++ "::" ++ s ++ "::" ++ "NaT")).length ≤ 1 := by
    rw [dedupStage_filter_eq l]
    rcases h' : ((l.map stage).filter
        (fun r => r.key = p ++ "::" ++ s ++ "::" ++ "NaT")).getLast? with _ | x
    · simp only [h']
      simp
    · simp only [h']
      simp
  have hsub1 : ((dedupStage l).filter
      (fun r => r.platform = p ∧ r.song_id = s ∧ r.timestamp = none)).length ≤ 1 := by
    rw [← List.countP_eq_length_filter]
    refine le_trans (List.countP_mono_left ?_) (by
      rw [List.countP_eq_length_filter]; exact hKsing)
    intro x hx hpx
    have h1 : x.platform = p ∧ x.song_id = s ∧ x.timestamp = none :=
      of_decide_eq_true hpx
    exact decide_eq_true
      (keyfact x (mem_dedupStage hx) h1.1 h1.2.1 h1.2.2)
  refine ⟨keyfact, hsub1, ?_⟩
  rcases l with _ | ⟨a, l'⟩
  · simp at hk
  · set L := a :: l' with hL
    set pB : StagedRecord → Bool := fun x => decide (x.timestamp = none) with hpB
    set qB : StagedRecord → Bool :=
      fun x => decide (x.key = p ++ "::" ++ s ++ "::" ++ "NaT") with hqB
    have hrej : rejectedCount L = (sortedStage L).countP pB := by
      show (sortedStage L).length - ((sortedStage L).filter (·.timestamp.isSome)).length = _
      rw [← List.countP_eq_length_filter,
        List.length_eq_countP_add_countP (p := fun x : StagedRecord => x.timestamp.isSome)]
      have : (sortedStage L).countP
          (fun x : StagedRecord => ¬ x.timestamp.isSome = true) =
          (sortedStage L).countP pB := by
        apply List.countP_congr
        intro x _
        rcases hx : x.timestamp with _ | tx <;> simp [hpB, hx]
      omega
    have hperm1 : List.Perm (sortedStage L) (dedupStage L) := sortByKey_perm _ _
    have hperm2 : List.Perm
        (sortByKey (fun r : StagedRecord => strKey r.key) (L.map stage)) (L.map stage) :=
      sortByKey_perm _ _
    have hA : (dedupStage L).countP (fun x => pB x && qB x) ≤ 1 := by
      refine le_trans (List.countP_mono_left (fun x _ hx => ?_)) (by
        rw [List.countP_eq_length_filter]
        exact hKsing)
      rw [Bool.and_eq_true] at hx
      exact hx.2
    have hB : (dedupStage L).countP (fun x => pB x && !qB x) ≤
        (L.map stage).countP (fun x => pB x && !qB x) := by
      refine le_trans ((keepLastOfRuns_sublist _).countP_le _) ?_
      exact le_of_eq (hperm2.countP_eq _)
    have hsplitD : (dedupStage L).countP pB =
        (dedupStage L).countP (fun x => pB x && qB x) +
          (dedupStage L).countP (fun x => pB x && !qB x) := countP_split _ _ _
    have hsplitS : (L.map stage).countP pB =
        (L.map stage).countP (fun x => pB x && qB x) +
          (L.map stage).countP (fun x => pB x && !qB x) := countP_split _ _ _
    have hAs : 2 ≤ (L.map stage).countP (fun x => pB x && qB x) := by
      refine le_trans (by
        rw [List.countP_eq_length_filter]
        exact hk) (List.countP_mono_left ?_)
      intro x hx hpx
      have h1 : x.platform = p ∧ x.song_id = s ∧ x.timestamp = none :=
        of_decide_eq_true hpx
      have hkey := keyfact x hx h1.1 h1.2.1 h1.2.2
      simp [hpB, hqB, h1.2.2, hkey]
    have hfinal : (dedupStage L).countP pB < (L.map stage).countP pB := by
      omega
    rw [hrej, hperm1.countP_eq]
    exact hfinal

/-- Witness for C7: two unparsable-date records of group (GENIE, 1) produce
one collision and one rejected record; the rejection count (1) is not the
number of raw unparsable records (2). -/
theorem c7_nat_key_collapse_witness :
    (2 ≤ (([wRawBad, wRawBad2].map stage).filter
      (fun r => r.platform = "GENIE" ∧ r.song_id = "1" ∧ r.timestamp = none)).length) ∧
    ((∀ r ∈ [wRawBad, wRawBad2].map stage,
        r.platform = "GENIE" → r.song_id = "1" → r.timestamp = none →
        r.key = "GENIE" ++ "::" ++ "1" ++ "::" ++ "NaT") ∧
      ((dedupStage [wRawBad, wRawBad2]).filter
        (fun r => r.platform = "GENIE" ∧ r.song_id = "1" ∧ r.timestamp = none)).length ≤ 1 ∧
      rejectedCount [wRawBad, wRawBad2] <
        ([wRawBad, wRawBad2].map stage).countP (fun r => r.timestamp = none)) ∧
    (normalize [wRawBad, wRawBad2]).2 = 1 ∧ rejectedCount [wRawBad, wRawBad2] = 1 := by
  refine ⟨by with_unfolding_all decide,
    c7_nat_key_collapse [wRawBad, wRawBad2] "GENIE" "1" (by with_unfolding_all decide),
    by with_unfolding_all decide, by with_unfolding_all decide⟩

theorem truncInt_intCast (z : ℤ) : truncInt (z : ℚ) = z := by
  rw [truncInt]
  split
  · exact Int.floor_intCast z
  · rw [← Int.cast_neg, Int.floor_intCast]
    omega

theorem toCanonical_stage_toRaw (c : CanonicalRecord)
    (h : (stage (toRaw c)).timestamp = some c.timestamp) :
    toCanonical (stage (toRaw c)) = some c := by
  rw [toCanonical, h, Option.map_some']
  rcases c with ⟨pl, si, sn, an, dt, hr, mi, tp, tl, ts⟩
  rcases tp with _ | q <;> rcases tl with _ | q' <;>
    simp [stage, toRaw, toNumeric, truncInt_intCast]

theorem stage_toRaw_key (c : CanonicalRecord)
    (h : (stage (toRaw c)).timestamp = some c.timestamp) :
    (stage (toRaw c)).key =
      c.platform ++ "::" ++ c.song_id ++ "::" ++ renderTs c.timestamp := by
  rw [stage_keyfact (toRaw c), h]
  rfl

theorem stagedKeyO_components {x y : StagedRecord} (h : stagedKeyO x = stagedKeyO y) :
    x.platform = y.platform ∧ x.song_id = y.song_id ∧
      (x.timestamp.elim (⊤ : WithTop (ℕ ×ₗ ℕ ×ₗ ℕ ×ₗ ℕ ×ₗ ℕ)) (fun t => (tsKey t : WithTop _)) =
        y.timestamp.elim ⊤ (fun t => (tsKey t : WithTop _))) := by
  have h1 : (strKey x.platform,
      toLex (strKey x.song_id,
        x.timestamp.elim (⊤ : WithTop (ℕ ×ₗ ℕ ×ₗ ℕ ×ₗ ℕ ×ₗ ℕ)) (fun t => (tsKey t : WithTop _)))) =
      (strKey y.platform,
        toLex (strKey y.song_id,
          y.timestamp.elim ⊤ (fun t => (tsKey t : WithTop _)))) := h
  have h2 := Prod.mk.injEq .. ▸ h1
  obtain ⟨hp, hrest⟩ := Prod.mk.inj h1
  have h3 : (strKey x.song_id,
      x.timestamp.elim (⊤ : WithTop (ℕ ×ₗ ℕ ×ₗ ℕ ×ₗ ℕ ×ₗ ℕ)) (fun t => (tsKey t : WithTop _))) =
      (strKey y.song_id, y.timestamp.elim ⊤ (fun t => (tsKey t : WithTop _))) := hrest
  obtain ⟨hs, hts⟩ := Prod.mk.inj h3
  exact ⟨strKey_inj hp, strKey_inj hs, hts⟩

theorem eq_of_perm_pairwise {α : Type} {R : α → α → Prop} :
    ∀ {l₁ l₂ : List α}, List.Perm l₁ l₂ → l₁.Pairwise R → l₂.Pairwise R →
      (∀ a ∈ l₁, ∀ b ∈ l₁, R a b → R b a → a = b) → l₁ = l₂
  | [], l₂, hp, _, _, _ => (hp.symm.eq_nil).symm
  | a :: t₁, l₂, hp, hpw₁, hpw₂, hanti => by
    have ha₂ : a ∈ l₂ := hp.mem_iff.1 (List.mem_cons_self a t₁)
    rcases l₂ with _ | ⟨b, t₂⟩
    · cases ha₂
    · have hab : a = b := by
        by_cases heq : a = b
        · exact heq
        · have hat₂ : a ∈ t₂ := by
            rcases List.mem_cons.1 ha₂ with h | h
            · exact absurd h heq
            · exact h
          have hb₁ : b ∈ a :: t₁ := hp.symm.mem_iff.1 (List.mem_cons_self b t₂)
          have hbt₁ : b ∈ t₁ := by
            rcases List.mem_cons.1 hb₁ with h | h
            · exact absurd h.symm heq
            · exact h
          have hRab : R a b := List.rel_of_pairwise_cons hpw₁ hbt₁
          have hRba : R b a := List.rel_of_pairwise_cons hpw₂ hat₂
          exact hanti a (List.mem_cons_self a t₁) b (List.mem_cons_of_mem _ hbt₁) hRab hRba
      subst hab
      have hperm' : List.Perm t₁ t₂ := hp.cons_inv
      have htail := eq_of_perm_pairwise hperm' hpw₁.of_cons hpw₂.of_cons
        (fun x hx y hy => hanti x (List.mem_cons_of_mem _ hx) y (List.mem_cons_of_mem _ hy))
      rw [htail]

theorem stagedKey_le_of_canonKey_le {a b : CanonicalRecord}
    (ha : (stage (toRaw a)).timestamp = some a.timestamp)
    (hb : (stage (toRaw b)).timestamp = some b.timestamp)
    (h : keyLE canonKey a b) :
    keyLE stagedKeyO (stage (toRaw a)) (stage (toRaw b)) := by
  rw [stagedKeyO_le_iff, ha, hb]
  rw [canonKey_le_iff] at h
  rcases h with h | ⟨h1, h | ⟨h2, h3⟩⟩
  · exact Or.inl h
  · exact Or.inr ⟨h1, Or.inl h⟩
  · exact Or.inr ⟨h1, Or.inr ⟨h2, WithTop.coe_le_coe.2 h3⟩⟩

theorem filterMap_stage_toRaw :
    ∀ (l : List CanonicalRecord),
      (∀ c ∈ l, (stage (toRaw c)).timestamp = some c.timestamp) →
      (l.map (fun c => stage (toRaw c))).filterMap toCanonical = l
  | [], _ => rfl
  | c :: t, h => by
    rw [List.map_cons,
      List.filterMap_cons_some (toCanonical_stage_toRaw c (h c (List.mem_cons_self _ _))),
      filterMap_stage_toRaw t (fun x hx => h x (List.mem_cons_of_mem _ hx))]

/-- C10: normalization is idempotent — feeding an already-normalized
collection (re-derivable timestamps, pairwise-distinct dedup keys, sorted by
`(platform, song_id, timestamp)`) back through the normalizer returns it
unchanged with zero collisions. -/
theorem c10_idempotent (l : List CanonicalRecord)
    (h1 : ∀ c ∈ l, (stage (toRaw c)).timestamp = some c.timestamp)
    (h2 : (l.map (fun c => (stage (toRaw c)).key)).Nodup)
    (h3 : l.Pairwise (keyLE canonKey)) :
    normalize (l.map toRaw) = (l, 0) := by
  rcases l with _ | ⟨c0, l0⟩
  · rfl
  set L := c0 :: l0 with hLdef
  set st := L.map (fun c => stage (toRaw c)) with hst
  have hmapmap : (L.map toRaw).map stage = st := by
    rw [hst, List.map_map]
    rfl
  have hkeys : (st.map (·.key)).Nodup := by
    rw [hst, List.map_map]
    exact h2
  have hkeys_sorted :
      ((sortByKey (fun r : StagedRecord => strKey r.key) st).map (·.key)).Nodup :=
    (((sortByKey_perm (fun r : StagedRecord => strKey r.key) st).map (·.key)).nodup_iff).2 hkeys
  have hdedup : dedupStage (L.map toRaw) =
      sortByKey (fun r : StagedRecord => strKey r.key) st := by
    rw [dedupStage, hmapmap]
    exact keepLastOfRuns_id _ hkeys_sorted
  have hmem_st : ∀ x ∈ st, ∃ a ∈ L, x = stage (toRaw a) := by
    intro x hx
    obtain ⟨a, ha, hax⟩ := List.mem_map.1 (hst ▸ hx)
    exact ⟨a, ha, hax.symm⟩
  have hpw_st : st.Pairwise (keyLE stagedKeyO) := by
    rw [hst]
    rw [List.pairwise_map]
    refine h3.imp_of_mem ?_
    intro a b ha hb hr
    exact stagedKey_le_of_canonKey_le (h1 a ha) (h1 b hb) hr
  have hanti : ∀ x ∈ sortedStage (L.map toRaw), ∀ y ∈ sortedStage (L.map toRaw),
      keyLE stagedKeyO x y → keyLE stagedKeyO y x → x = y := by
    have hperm_s : List.Perm (sortedStage (L.map toRaw)) st := by
      rw [sortedStage, hdedup]
      exact (sortByKey_perm _ _).trans (sortByKey_perm _ _)
    intro x hx y hy hxy hyx
    have hx' : x ∈ st := hperm_s.mem_iff.1 hx
    have hy' : y ∈ st := hperm_s.mem_iff.1 hy
    have heq : stagedKeyO x = stagedKeyO y := le_antisymm hxy hyx
    obtain ⟨hp, hs, hts⟩ := stagedKeyO_components heq
    obtain ⟨a, ha, hax⟩ := hmem_st x hx'
    obtain ⟨b, hb, hby⟩ := hmem_st y hy'
    have hta : x.timestamp = some a.timestamp := hax ▸ h1 a ha
    have htb : y.timestamp = some b.timestamp := hby ▸ h1 b hb
    have htkey : tsKey a.timestamp = tsKey b.timestamp := by
      rw [hta, htb] at hts
      exact WithTop.coe_inj.1 hts
    have htab : a.timestamp = b.timestamp := tsKey_inj htkey
    have hkeq : x.key = y.key := by
      rw [hax, hby, stage_toRaw_key a (h1 a ha), stage_toRaw_key b (h1 b hb)]
      have hpa : a.platform = b.platform := by
        have : (stage (toRaw a)).platform = (stage (toRaw b)).platform := hax ▸ hby ▸ hp
        exact this
      have hsa : a.song_id = b.song_id := by
        have : (stage (toRaw a)).song_id = (stage (toRaw b)).song_id := hax ▸ hby ▸ hs
        exact this
      rw [hpa, hsa, htab]
    exact List.inj_on_of_nodup_map hkeys hx' hy' hkeq
  have hsorted_is : sortedStage (L.map toRaw) = st := by
    have hperm_s : List.Perm (sortedStage (L.map toRaw)) st := by
      rw [sortedStage, hdedup]
      exact (sortByKey_perm _ _).trans (sortByKey_perm _ _)
    exact eq_of_perm_pairwise hperm_s
      (sortByKey_sorted stagedKeyO (dedupStage (L.map toRaw))) hpw_st hanti
  have hnorm : normalize (L.map toRaw) =
      ((sortedStage (L.map toRaw)).filterMap toCanonical,
        dupCount (((L.map toRaw).map stage).map (·.key))) := rfl
  rw [hnorm, hsorted_is, hst, filterMap_stage_toRaw L h1]
  have hzero : dupCount (((L.map toRaw).map stage).map (·.key)) = 0 := by
    rw [hmapmap, dupCount_eq, List.dedup_eq_self.2 hkeys]
    omega
  rw [hzero]

/-- Witness for C10 at a two-record normalized collection. -/
theorem c10_idempotent_witness :
    normalize ([wCanA, wCanB].map toRaw) = ([wCanA, wCanB], 0) :=
  c10_idempotent [wCanA, wCanB] (by with_unfolding_all decide)
    (by with_unfolding_all decide) (by with_unfolding_all decide)

theorem parseNumericF_val {s : String} {q : ℚ} (h : parseNumericF s = .val q) :
    parseDecimal s = some q := by
  rw [parseNumericF] at h
  split at h
  · cases h
  · split at h
    · cases h
    · rcases hpd : parseDecimal s with _ | q'
      · rw [hpd] at h
        cases h
      · rw [hpd] at h
        cases h
        rfl

theorem parseNumericF_nan {s : String} (h : parseNumericF s = .nan) :
    parseDecimal s = none := by
  rw [parseNumericF] at h
  split at h
  · cases h
  · split at h
    · cases h
    · rcases hpd : parseDecimal s with _ | q'
      · rfl
      · rw [hpd] at h
        cases h

/-- C9: the `hour`/`minute` coercion of `_ensure_columns` raises a
`ValueError` on the non-finite numeric strings `"inf"`/`"Infinity"`
(`pd.to_numeric` parses them to infinity, `fillna(0)` leaves them, and
`astype(int)` cannot convert them) — so a malformed numeric field *can*
abort the run, contradicting the claimed (and spec-intended) degrade-only
error handling; on every cell where no error is raised the coercion agrees
with the total NaN-based model `toNumeric` used by the pipeline. -/
theorem c9_nonfinite_hour_raises :
    coerceHourF (.str "inf") =
      Except.error "Cannot convert non-finite values (NA or inf) to integer" ∧
    coerceHourF (.str "Infinity") =
      Except.error "Cannot convert non-finite values (NA or inf) to integer" ∧
    (∀ f : Field, (∀ e, coerceHourF f ≠ Except.error e) →
      coerceHourF f = Except.ok (truncInt ((toNumeric f).getD 0))) := by
  refine ⟨by with_unfolding_all rfl, by with_unfolding_all rfl, ?_⟩
  intro f hf
  rcases f with _ | s | q
  · show Except.ok 0 = _
    norm_num [toNumeric, truncInt]
  · rcases hp : parseNumericF s with _ | _ | _ | q
    · have hpd := parseNumericF_nan hp
      show intCastCell (parseNumericF s) = _
      rw [hp]
      show Except.ok 0 = _
      rw [show toNumeric (.str s) = parseDecimal s from rfl, hpd]
      norm_num [truncInt]
    · exfalso
      refine hf "Cannot convert non-finite values (NA or inf) to integer" ?_
      show intCastCell (parseNumericF s) = _
      rw [hp]
      rfl
    · exfalso
      refine hf "Cannot convert non-finite values (NA or inf) to integer" ?_
      show intCastCell (parseNumericF s) = _
      rw [hp]
      rfl
    · have hpd := parseNumericF_val hp
      show intCastCell (parseNumericF s) = _
      rw [hp]
      show Except.ok (truncInt q) = _
      rw [show toNumeric (.str s) = parseDecimal s from rfl, hpd]
      rfl
  · rfl

/-- Witness for C9's agreement clause at a well-formed hour cell. -/
theorem c9_nonfinite_hour_raises_witness :
    (∀ e, coerceHourF (.str "10") ≠ Except.error e) ∧
    coerceHourF (.str "10") = Except.ok (truncInt ((toNumeric (.str "10")).getD 0)) ∧
    coerceHourF (.str "10") = Except.ok 10 := by
  have hok : coerceHourF (.str "10") = Except.ok 10 := by with_unfolding_all rfl
  have hne : ∀ e, coerceHourF (.str "10") ≠ Except.error e := by
    intro e h
    rw [hok] at h
    cases h
  exact ⟨hne, c9_nonfinite_hour_raises.2.2 (.str "10") hne, hok⟩

end ChartMaker
